import Mathlib

set_option maxRecDepth 20000

/-
  Shallow embedding of the etcd-txn-parser crate.

  The crate's own sources (lib.rs, compare.rs, operation.rs) are embedded
  faithfully below.  The parser-combinator runtime it depends on
  (Scanner, peek, Until, UntilEnd, GroupKind, Number, DataString,
  OptionalWhitespaces, SeparatedList, Acceptor, Recognizer) is a
  dependency whose sources are not part of this repository; those
  primitives are modelled from the specification (sections 4.1-4.5, 4.8),
  and each such definition carries a doc comment saying so.

  A scanner over an immutable byte buffer is represented by the list of
  bytes remaining at the cursor; every rule maps that list to a result
  together with a new remaining list.  The single error kind of the
  library, UnexpectedToken (spec section 7), is represented by the `err`
  constructor, whose payload records the remaining bytes at the point of
  failure (the Rust scanner may have been advanced by a failing rule; the
  ordered-alternative dispatcher is the one responsible for restarting
  from the saved position).
-/

namespace EtcdTxn

/-- Modelled from the spec: the whitespace-skip rule of the missing
combinator library consumes ASCII space and tab bytes (spec section 4.2). -/
def isWsByte (b : Nat) : Bool := b == 32 || b == 9

/-- Byte predicate of Rust's `u8::is_ascii_whitespace`, used by
`trim_ascii_end` in compare.rs: space, tab, line feed, form feed,
carriage return. -/
def isAsciiWsByte (b : Nat) : Bool :=
  b == 32 || b == 9 || b == 10 || b == 12 || b == 13

/-- Convenience: the byte list of an ASCII string literal. -/
def bytes (s : String) : List Nat := s.data.map Char.toNat

/-- Result of running a rule: `ok value rest`, or `err rest` which stands
for the library's single error kind `ParseError::UnexpectedToken`
(spec section 7), recording the bytes remaining where the rule failed. -/
inductive ParseOut (α : Type) where
  | ok (a : α) (rest : List Nat)
  | err (rest : List Nat)
deriving DecidableEq

/-- Test for the success constructor. -/
def ParseOut.isOk {α : Type} : ParseOut α → Bool
  | .ok _ _ => true
  | .err _ => false

/-- Test for the error constructor (an `UnexpectedToken` outcome). -/
def ParseOut.isErr {α : Type} : ParseOut α → Bool
  | .ok _ _ => false
  | .err _ => true

/-- Map over the success value of a parse result. -/
def pmap {α β : Type} (f : α → β) : ParseOut α → ParseOut β
  | .ok a r => .ok (f a) r
  | .err e => .err e

/-- Modelled from the spec: `OptionalWhitespaces::accept` consumes zero or
more space/tab bytes and never fails (spec section 4.2). -/
def optWs (s : List Nat) : List Nat := s.dropWhile isWsByte

/-- Embeds the `LineFeed` visitor of lib.rs: `recognize(Token::Ln)`
consumes exactly one line-feed byte, failing on anything else. -/
def lineFeedAccept (s : List Nat) : ParseOut Unit :=
  match s with
  | [] => .err []
  | b :: r => if b == 10 then .ok () r else .err (b :: r)

/-- Modelled from the spec: the `Until` peek of the missing library scans
for the first occurrence of a delimiter pattern and reports the slice in
front of it together with the offset of that occurrence (the scanner is
not moved; the caller decides what to bump).  Returns `none` when the
pattern does not occur (spec section 4.3); the composition in lib.rs,
together with the repository's own tests, fixes the reported offset as
the start of the pattern. -/
def peekUntil (pat : List Nat) : List Nat → Option (List Nat × Nat)
  | [] => if pat.isPrefixOf ([] : List Nat) then some ([], 0) else none
  | b :: rest =>
    if pat.isPrefixOf (b :: rest) then some ([], 0)
    else
      match peekUntil pat rest with
      | some (d, i) => some (b :: d, i + 1)
      | none => none

/-- Modelled from the spec: the `GroupKind` peek expects the opening
delimiter at the cursor, scans for the matching single closing delimiter
(no nesting, no escapes), and reports the inner slice together with the
total length including both delimiters; it fails if the group is not
closed before the end of the buffer (spec section 4.3). -/
def peekGroup (o c : Nat) (s : List Nat) : Option (List Nat × Nat) :=
  match s with
  | [] => none
  | b :: rest =>
    if b == o then
      match peekUntil [c] rest with
      | some (inner, i) => some (inner, i + 2)
      | none => none
    else none

/-- Embeds `QuotedString` of operation.rs: a double-quoted group, quotes
stripped, scanner bumped past the closing quote. -/
def quotedStringAccept (s : List Nat) : ParseOut (List Nat) :=
  match peekGroup 34 34 s with
  | some (inner, e) => .ok inner (s.drop e)
  | none => .err s

/-- Modelled from the spec: an unquoted literal stops at the next
whitespace byte, line feed, or end of input (spec section 4.8). -/
def unquotedStopByte (b : Nat) : Bool := isWsByte b || b == 10

/-- Embeds `UnquotedString` of operation.rs: the maximal run of bytes up
to the next whitespace, line feed, or end of input; per the modelled
Peeker (`Token::Whitespace` or `UntilEnd`) it always succeeds, possibly
with an empty run. -/
def unquotedStringAccept (s : List Nat) : ParseOut (List Nat) :=
  .ok (s.takeWhile (fun b => !unquotedStopByte b))
    (s.drop (s.takeWhile (fun b => !unquotedStopByte b)).length)

/-- Modelled from the spec: the ordered-alternative dispatcher
(`Acceptor`/`Recognizer`) tries each candidate rule in turn against the
same starting position, commits to the first success, and restarts every
later attempt from the saved start regardless of how far a failed rule
advanced; when all candidates fail it fails with UnexpectedToken
(spec section 4.4). -/
def tryAlts {α : Type} : List (List Nat → ParseOut α) → List Nat → ParseOut α
  | [], s => .err s
  | p :: ps, s =>
    match p s with
    | .ok a r => .ok a r
    | .err _ => tryAlts ps s

/-- Embeds `Data::accept` of operation.rs: a quoted literal, else an
unquoted one, through the ordered-alternative dispatcher. -/
def dataAccept (s : List Nat) : ParseOut (List Nat) :=
  tryAlts [quotedStringAccept, unquotedStringAccept] s

/-- Embeds `Key::accept` of compare.rs: a parenthesized group whose inner
content is parsed as a Data literal; the scanner is bumped past the
closing parenthesis only on success. -/
def keyAccept (s : List Nat) : ParseOut (List Nat) :=
  match peekGroup 40 41 s with
  | none => .err s
  | some (inner, e) =>
    match dataAccept inner with
    | .ok k _ => .ok k (s.drop e)
    | .err _ => .err s

/-- Decimal digit byte. -/
def isDigitByte (b : Nat) : Bool := 48 ≤ b && b ≤ 57

/-- Numeric value of a run of ASCII digit bytes. -/
def natOfDigits (l : List Nat) : Nat := l.foldl (fun acc b => acc * 10 + (b - 48)) 0

/-- Modelled from the spec: the `Number` rule of the missing library
consumes one or more ASCII digits and converts them to an unsigned
64-bit integer, failing on an empty run or on overflow, never truncating
or defaulting (spec sections 3 and 4.2). -/
def numberAccept (s : List Nat) : ParseOut Nat :=
  if (s.takeWhile isDigitByte).isEmpty then .err s
  else if natOfDigits (s.takeWhile isDigitByte) < 2 ^ 64 then
    .ok (natOfDigits (s.takeWhile isDigitByte)) (s.drop (s.takeWhile isDigitByte).length)
  else .err s

/-- Embeds `OpType` of compare.rs. -/
inductive OpType where
  | Equal
  | GreaterThan
  | LessThan
deriving DecidableEq

/-- Embeds `OpType::accept` of compare.rs: the recognizer tries the
tokens `=`, `>`, `<` in order, consuming exactly one byte on success;
any other byte (or end of input) is an UnexpectedToken failure. -/
def OpType.accept (s : List Nat) : ParseOut OpType :=
  match s with
  | [] => .err []
  | b :: r =>
    if b == 61 then .ok .Equal r
    else if b == 62 then .ok .GreaterThan r
    else if b == 60 then .ok .LessThan r
    else .err (b :: r)

/-- Embeds Rust's `trim_ascii_end` on byte slices, as used by the keyword
checks of compare.rs. -/
def trimAsciiEnd (l : List Nat) : List Nat := (l.reverse.dropWhile isAsciiWsByte).reverse

/-- Common tail of the four numeric comparison rules of compare.rs, whose
Rust bodies after the keyword check are identical: parenthesized key,
optional whitespace, operator, optional whitespace, number. -/
def numCompareTail (s : List Nat) : ParseOut (List Nat × OpType × Nat) :=
  match keyAccept s with
  | .err e => .err e
  | .ok key s1 =>
    match OpType.accept (optWs s1) with
    | .err e => .err e
    | .ok op s3 =>
      match numberAccept (optWs s3) with
      | .err e => .err e
      | .ok v s5 => .ok (key, op, v) s5

/-- Embeds `CreateRevision` of compare.rs. -/
structure CreateRevision where
  key : List Nat
  value : Nat
  op : OpType
deriving DecidableEq

/-- Embeds `CreateRevision::accept`: skip whitespace, peek up to the first
opening parenthesis, accept the keyword when its right-trimmed form is
`c` or it is exactly `create`, bump past it, then key, operator, number. -/
def CreateRevision.accept (s : List Nat) : ParseOut CreateRevision :=
  match peekUntil [40] (optWs s) with
  | none => .err (optWs s)
  | some (kw, _) =>
    if trimAsciiEnd kw == bytes "c" || kw == trimAsciiEnd (bytes "create") then
      match numCompareTail ((optWs s).drop kw.length) with
      | .ok (k, op, v) r => .ok ⟨k, v, op⟩ r
      | .err e => .err e
    else .err (optWs s)

/-- Embeds `ModRevision` of compare.rs. -/
structure ModRevision where
  key : List Nat
  value : Nat
  op : OpType
deriving DecidableEq

/-- Embeds `ModRevision::accept` (keywords `m` / `mod`). -/
def ModRevision.accept (s : List Nat) : ParseOut ModRevision :=
  match peekUntil [40] (optWs s) with
  | none => .err (optWs s)
  | some (kw, _) =>
    if trimAsciiEnd kw == bytes "m" || kw == trimAsciiEnd (bytes "mod") then
      match numCompareTail ((optWs s).drop kw.length) with
      | .ok (k, op, v) r => .ok ⟨k, v, op⟩ r
      | .err e => .err e
    else .err (optWs s)

/-- Embeds `Value` of compare.rs (a stored-value comparison). -/
structure Value where
  key : List Nat
  value : List Nat
  op : OpType
deriving DecidableEq

/-- Tail of the `Value` rule of compare.rs after the keyword check:
parenthesized key, optional whitespace, operator, optional whitespace,
then an `UntilEnd` peek — the value is the whole remainder of the
scanner's buffer and the scanner is not advanced past it. -/
def valueCompareTail (s : List Nat) : ParseOut (List Nat × OpType × List Nat) :=
  match keyAccept s with
  | .err e => .err e
  | .ok k s1 =>
    match OpType.accept (optWs s1) with
    | .err e => .err e
    | .ok op s3 => .ok (k, op, optWs s3) (optWs s3)

/-- Embeds `Value::accept` (keywords `val` / `value`). -/
def Value.accept (s : List Nat) : ParseOut Value :=
  match peekUntil [40] (optWs s) with
  | none => .err (optWs s)
  | some (kw, _) =>
    if trimAsciiEnd kw == bytes "val" || kw == trimAsciiEnd (bytes "value") then
      match valueCompareTail ((optWs s).drop kw.length) with
      | .ok (k, op, v) r => .ok ⟨k, v, op⟩ r
      | .err e => .err e
    else .err (optWs s)

/-- Embeds `Version` of compare.rs. -/
structure Version where
  key : List Nat
  value : Nat
  op : OpType
deriving DecidableEq

/-- Embeds `Version::accept` (keywords `ver` / `version`). -/
def Version.accept (s : List Nat) : ParseOut Version :=
  match peekUntil [40] (optWs s) with
  | none => .err (optWs s)
  | some (kw, _) =>
    if trimAsciiEnd kw == bytes "ver" || kw == trimAsciiEnd (bytes "version") then
      match numCompareTail ((optWs s).drop kw.length) with
      | .ok (k, op, v) r => .ok ⟨k, v, op⟩ r
      | .err e => .err e
    else .err (optWs s)

/-- Embeds `Lease` of compare.rs. -/
structure Lease where
  key : List Nat
  value : Nat
  op : OpType
deriving DecidableEq

/-- Embeds `Lease::accept` (single keyword `lease`). -/
def Lease.accept (s : List Nat) : ParseOut Lease :=
  match peekUntil [40] (optWs s) with
  | none => .err (optWs s)
  | some (kw, _) =>
    if trimAsciiEnd kw == bytes "lease" then
      match numCompareTail ((optWs s).drop kw.length) with
      | .ok (k, op, v) r => .ok ⟨k, v, op⟩ r
      | .err e => .err e
    else .err (optWs s)

/-- Embeds the `Compare` tagged union of compare.rs. -/
inductive Compare where
  | CreateRevision (c : CreateRevision)
  | ModRevision (m : ModRevision)
  | Value (v : Value)
  | Version (v : Version)
  | Lease (l : Lease)
deriving DecidableEq

/-- The ordered alternatives of `Compare::accept`, in the declared order
of compare.rs: ModRevision, CreateRevision, Value, Version, Lease. -/
def compareAlts : List (List Nat → ParseOut Compare) :=
  [fun s => pmap Compare.ModRevision (ModRevision.accept s),
   fun s => pmap Compare.CreateRevision (CreateRevision.accept s),
   fun s => pmap Compare.Value (Value.accept s),
   fun s => pmap Compare.Version (Version.accept s),
   fun s => pmap Compare.Lease (Lease.accept s)]

/-- Embeds `Compare::accept` of compare.rs. -/
def Compare.accept (s : List Nat) : ParseOut Compare := tryAlts compareAlts s

/-- Embeds `PutData` of operation.rs. -/
structure PutData where
  key : List Nat
  value : List Nat
deriving DecidableEq

/-- Embeds `PutData::accept`: keyword `put`, then two Data literals. -/
def PutData.accept (s : List Nat) : ParseOut PutData :=
  match dataAccept (optWs s) with
  | .err e => .err e
  | .ok cmd s1 =>
    if cmd == bytes "put" then
      match dataAccept (optWs s1) with
      | .err e => .err e
      | .ok key s3 =>
        match dataAccept (optWs s3) with
        | .err e => .err e
        | .ok v s5 => .ok ⟨key, v⟩ (optWs s5)
    else .err s1

/-- Modelled from the spec: the Peeker over `Token::Ln` or `UntilEnd`
used by the del/get rules restricts parsing to the current line — the
slice up to the next line feed, or the rest of the buffer when none
remains (spec sections 4.3 and 4.7). -/
def untilLn (s : List Nat) : List Nat :=
  match peekUntil [10] s with
  | some (d, _) => d
  | none => s

/-- Embeds `DeleteData` of operation.rs. -/
structure DeleteData where
  key : List Nat
deriving DecidableEq

/-- Embeds `DeleteData::accept`: keyword `del`, then one Data literal
taken within the current line; the outer scanner is bumped by what the
inner line scanner consumed. -/
def DeleteData.accept (s : List Nat) : ParseOut DeleteData :=
  match dataAccept (optWs s) with
  | .err e => .err e
  | .ok cmd s1 =>
    if cmd == bytes "del" then
      match dataAccept (untilLn (optWs s1)) with
      | .err e => .err e
      | .ok key rsub =>
        .ok ⟨key⟩ (optWs ((optWs s1).drop ((untilLn (optWs s1)).length - rsub.length)))
    else .err s1

/-- Embeds `GetData` of operation.rs. -/
structure GetData where
  key : List Nat
deriving DecidableEq

/-- Embeds `GetData::accept`: keyword `get`, then one Data literal taken
within the current line. -/
def GetData.accept (s : List Nat) : ParseOut GetData :=
  match dataAccept (optWs s) with
  | .err e => .err e
  | .ok cmd s1 =>
    if cmd == bytes "get" then
      match dataAccept (untilLn (optWs s1)) with
      | .err e => .err e
      | .ok key rsub =>
        .ok ⟨key⟩ (optWs ((optWs s1).drop ((untilLn (optWs s1)).length - rsub.length)))
    else .err s1

/-- Embeds the `Operation` tagged union of operation.rs. -/
inductive Operation where
  | Put (p : PutData)
  | Delete (d : DeleteData)
  | Get (g : GetData)
deriving DecidableEq

/-- The ordered alternatives of `Operation::accept`, in the declared
order of operation.rs: Put, Delete, Get. -/
def operationAlts : List (List Nat → ParseOut Operation) :=
  [fun s => pmap Operation.Put (PutData.accept s),
   fun s => pmap Operation.Delete (DeleteData.accept s),
   fun s => pmap Operation.Get (GetData.accept s)]

/-- Embeds `Operation::accept` of operation.rs. -/
def Operation.accept (s : List Nat) : ParseOut Operation := tryAlts operationAlts s

/-- Modelled from the spec: loop of the separated-list rule after the
first item — attempt the line-feed separator; when it fails, stop; when
it succeeds, the next item is required, and its failure surfaces as an
error rather than silently dropping the line (spec section 4.5).  The
fuel argument bounds the recursion; each iteration consumes at least
the one-byte separator, so `length + 1` fuel is never exhausted. -/
def sepListAux {α : Type} (item : List Nat → ParseOut α) :
    Nat → α → List Nat → ParseOut (List α)
  | 0, a, s => .ok [a] s
  | fuel + 1, a, s =>
    match lineFeedAccept s with
    | .err _ => .ok [a] s
    | .ok _ s2 =>
      match item s2 with
      | .err e => .err e
      | .ok b s3 =>
        match sepListAux item fuel b s3 with
        | .ok bs s4 => .ok (a :: bs) s4
        | .err e => .err e

/-- Modelled from the spec: `SeparatedList` over an item rule and the
line-feed separator; when the very first item fails, the result is the
empty list rather than a failure (spec section 4.5). -/
def sepList {α : Type} (item : List Nat → ParseOut α) (s : List Nat) : ParseOut (List α) :=
  match item s with
  | .err _ => .ok [] s
  | .ok a s1 => sepListAux item (s1.length + 1) a s1

/-- Embeds `TxnData` of lib.rs. -/
structure TxnData where
  compares : List Compare
  success : List Operation
  failure : List Operation
deriving DecidableEq

/-- Common shape of the compare and success sections of
`TxnData::accept` in lib.rs: peek up to the first blank-line boundary
(failing when none exists), and when the slice in front of it is
non-empty, parse it as a separated list on its own sub-scanner and bump
the outer scanner to the boundary; an empty slice parses as the empty
list with no bump. -/
def sectionUntilBoundary {α : Type} (item : List Nat → ParseOut α) (d : List Nat) :
    ParseOut (List α) :=
  match peekUntil [10, 10] d with
  | none => .err d
  | some (data, i) =>
    if data.isEmpty then .ok [] d
    else
      match sepList item data with
      | .ok xs _ => .ok xs (d.drop i)
      | .err e => .err e

/-- Embeds the failure-section block of `TxnData::accept`: an `UntilEnd`
peek (always succeeding) of the rest of the buffer, parsed as a
separated list when non-empty; the outer scanner is never bumped. -/
def failureSection (d : List Nat) : ParseOut (List Operation) :=
  if d.isEmpty then .ok [] d
  else
    match sepList Operation.accept d with
    | .ok xs _ => .ok xs d
    | .err e => .err e

/-- Embeds the two consecutive `LineFeed::accept` calls that consume a
blank-line section boundary in lib.rs. -/
def lfPair (d : List Nat) : ParseOut Unit :=
  match lineFeedAccept d with
  | .err e => .err e
  | .ok _ d1 =>
    match lineFeedAccept d1 with
    | .err e => .err e
    | .ok _ d2 => .ok () d2

/-- The success-and-failure phase of `TxnData::accept`: success section,
boundary, failure section. -/
def successFailure (d : List Nat) : ParseOut (List Operation × List Operation) :=
  match sectionUntilBoundary Operation.accept d with
  | .err e => .err e
  | .ok suc d4 =>
    match lfPair d4 with
    | .err e => .err e
    | .ok _ d6 =>
      match failureSection d6 with
      | .err e => .err e
      | .ok fl r => .ok (suc, fl) r

/-- Embeds `TxnData::accept` of lib.rs: optional leading whitespace,
compare section, boundary, success section, boundary, failure section. -/
def TxnData.accept (s : List Nat) : ParseOut TxnData :=
  match sectionUntilBoundary Compare.accept (optWs s) with
  | .err e => .err e
  | .ok cs d1 =>
    match lfPair d1 with
    | .err e => .err e
    | .ok _ d3 =>
      match successFailure d3 with
      | .err e => .err e
      | .ok (suc, fl) r => .ok ⟨cs, suc, fl⟩ r

/-- Line of the form keyword, parenthesized key, space, operator byte,
space, right-hand side, as in the short/long keyword equivalence claim. -/
def cline (kwb k : List Nat) (o : Nat) (v : List Nat) : List Nat :=
  kwb ++ 40 :: (k ++ 41 :: 32 :: o :: 32 :: v)

theorem optWs_cons {b : Nat} (t : List Nat) (h : isWsByte b = false) :
    optWs (b :: t) = b :: t := by
  simp [optWs, List.dropWhile, h]

theorem lfPair_cons (rest : List Nat) : lfPair (10 :: 10 :: rest) = .ok () rest := by
  simp [lfPair, lineFeedAccept]

theorem peekUntil_of_isPrefixOf {pat s : List Nat} (h : pat.isPrefixOf s = true) :
    peekUntil pat s = some ([], 0) := by
  cases s with
  | nil => simp [peekUntil, h]
  | cons b t => simp [peekUntil, h]

/-- C10: the section-boundary policy: an empty compare section leaves the
scanner at the boundary, and exactly two literal line-feed bytes are then
required and consumed before the success-and-failure phase runs on the
remainder; likewise an empty success section before the failure phase.
Concretely, line-feed, line-feed, `get key`, line-feed, line-feed parses
to compares = [], success = [Get "key"], failure = [], while replacing the
second boundary by a single line-feed makes the parse fail. -/
theorem spec_c10 :
    (∀ rest : List Nat,
      TxnData.accept (10 :: 10 :: rest) =
        match successFailure rest with
        | .err e => .err e
        | .ok (suc, fl) r => .ok ⟨[], suc, fl⟩ r) ∧
    (∀ rest : List Nat,
      successFailure (10 :: 10 :: rest) =
        match failureSection rest with
        | .err e => .err e
        | .ok fl r => .ok ([], fl) r) ∧
    TxnData.accept (bytes "\n\nget key\n\n") =
      .ok ⟨[], [.Get ⟨bytes "key"⟩], []⟩ [] ∧
    (TxnData.accept (bytes "\n\nget key\n")).isErr = true := by
  refine ⟨?_, ?_, by decide, by decide⟩
  · intro rest
    have hws : optWs (10 :: 10 :: rest) = 10 :: 10 :: rest := optWs_cons _ (by decide)
    have hpk : peekUntil [10, 10] (10 :: 10 :: rest) = some ([], 0) :=
      peekUntil_of_isPrefixOf (by simp [List.isPrefixOf])
    unfold TxnData.accept
    rw [hws]
    unfold sectionUntilBoundary
    rw [hpk]
    simp only [List.isEmpty_nil, if_true, lfPair_cons]
  · intro rest
    have hpk : peekUntil [10, 10] (10 :: 10 :: rest) = some ([], 0) :=
      peekUntil_of_isPrefixOf (by simp [List.isPrefixOf])
    unfold successFailure
    unfold sectionUntilBoundary
    rw [hpk]
    simp only [List.isEmpty_nil, if_true, lfPair_cons]

/-- C1: the top-level parse of scenario 1 succeeds and returns exactly one
ModRevision compare (key "key1", value 0, GreaterThan), one Put in the
success branch, and two Puts in the failure branch, in source order. -/
theorem spec_c1 :
    TxnData.accept (bytes "mod(\"key1\") > 0\n\nput key1 \"overwrote-key1\"\n\nput \"key1\" \"created-key1\"\nput key2 \"some extra key\"") =
      .ok ⟨[.ModRevision ⟨bytes "key1", 0, .GreaterThan⟩],
           [.Put ⟨bytes "key1", bytes "overwrote-key1"⟩],
           [.Put ⟨bytes "key1", bytes "created-key1"⟩, .Put ⟨bytes "key2", bytes "some extra key"⟩]⟩
        (bytes "put \"key1\" \"created-key1\"\nput key2 \"some extra key\"") := by
  decide

/-- C2 counterexample: on the buffer `val(k) = a`, line feed,
`val(k2) = b`, the Value rule yields as value the whole remainder of the
buffer, not the trailing bytes `a` of its own line as the claim states. -/
theorem spec_c2_cex :
    Value.accept (bytes "val(k) = a\nval(k2) = b") =
      .ok ⟨bytes "k", bytes "a\nval(k2) = b", .Equal⟩ (bytes "a\nval(k2) = b") ∧
    bytes "a\nval(k2) = b" ≠ bytes "a" := by
  constructor
  · decide
  · decide

/-- C2 amended: the value field of a successfully parsed Value comparison
is the entire remainder of the buffer the rule was run on (after the
operator and optional whitespace), and the scanner is not advanced past
it: the returned rest equals the value. -/
theorem valueCompareTail_value {s k : List Nat} {op : OpType} {v r : List Nat}
    (h : valueCompareTail s = .ok (k, op, v) r) : v = r := by
  unfold valueCompareTail at h
  split at h
  · simp at h
  · split at h
    · simp at h
    · cases h
      rfl

theorem spec_c2_thm : ∀ (s : List Nat) (c : Value) (r : List Nat),
    Value.accept s = .ok c r → c.value = r := by
  intro s c r h
  unfold Value.accept at h
  split at h
  · simp at h
  · split at h
    · split at h
      · rename_i k op v r' heq
        cases h
        exact valueCompareTail_value heq
      · simp at h
    · simp at h

/-- C2 witness: the amended statement applied at a concrete input. -/
theorem spec_c2_witness :
    Value.accept (bytes "val(k) = toto") =
      .ok ⟨bytes "k", bytes "toto", .Equal⟩ (bytes "toto") ∧
    (⟨bytes "k", bytes "toto", OpType.Equal⟩ : Value).value = bytes "toto" :=
  ⟨by decide, spec_c2_thm (bytes "val(k) = toto") _ _ (by decide)⟩

/-- C5: the operator rule maps `=` to Equal, `>` to GreaterThan, `<` to
LessThan, consuming exactly the one operator byte, and fails with
UnexpectedToken on any other first byte or on empty input. -/
theorem spec_c5 :
    (∀ r : List Nat, OpType.accept (61 :: r) = .ok .Equal r) ∧
    (∀ r : List Nat, OpType.accept (62 :: r) = .ok .GreaterThan r) ∧
    (∀ r : List Nat, OpType.accept (60 :: r) = .ok .LessThan r) ∧
    (∀ (b : Nat) (r : List Nat), b ≠ 61 → b ≠ 62 → b ≠ 60 →
      (OpType.accept (b :: r)).isErr = true) ∧
    (OpType.accept []).isErr = true := by
  refine ⟨fun r => rfl, fun r => rfl, fun r => rfl, ?_, rfl⟩
  intro b r h1 h2 h3
  simp [OpType.accept, ParseOut.isErr, h1, h2, h3]

/-- C5 witness: the failure clause applied at the concrete byte `a`. -/
theorem spec_c5_witness : (OpType.accept (97 :: [])).isErr = true :=
  spec_c5.2.2.2.1 97 [] (by decide) (by decide) (by decide)

theorem peekUntil_single_append (c : Nat) (pre post : List Nat) (h : c ∉ pre) :
    peekUntil [c] (pre ++ c :: post) = some (pre, pre.length) := by
  induction pre with
  | nil =>
    simp only [List.nil_append, List.length_nil]
    exact peekUntil_of_isPrefixOf (by simp [List.isPrefixOf])
  | cons a t ih =>
    have ha : ¬((c : Nat) == a) = true := by
      simp only [beq_iff_eq]
      intro hca
      exact h (by simp [hca])
    rw [List.cons_append]
    unfold peekUntil
    rw [if_neg (by simp [List.isPrefixOf, ha]), ih (fun hc => h (List.mem_cons_of_mem _ hc))]
    simp

theorem createRevision_accept_kw (kwb rest : List Nat) (hne : kwb ≠ [])
    (hws : isWsByte kwb.headI = false) (hpar : (40 : Nat) ∉ kwb) :
    CreateRevision.accept (kwb ++ 40 :: rest) =
      if trimAsciiEnd kwb == bytes "c" || kwb == trimAsciiEnd (bytes "create") then
        match numCompareTail (40 :: rest) with
        | .ok (k, op, v) r => .ok ⟨k, v, op⟩ r
        | .err e => .err e
      else .err (kwb ++ 40 :: rest) := by
  obtain ⟨b, t, rfl⟩ := List.exists_cons_of_ne_nil hne
  have hO : optWs ((b :: t) ++ 40 :: rest) = (b :: t) ++ 40 :: rest := by
    rw [List.cons_append]
    exact optWs_cons _ hws
  have hP : peekUntil [40] ((b :: t) ++ 40 :: rest) = some (b :: t, (b :: t).length) :=
    peekUntil_single_append 40 (b :: t) rest hpar
  unfold CreateRevision.accept
  rw [hO]
  split
  · rename_i hnone
    rw [hP] at hnone
    cases hnone
  · rename_i kw i hsome
    rw [hP] at hsome
    injection hsome with h1
    cases h1
    rw [List.drop_left]

theorem modRevision_accept_kw (kwb rest : List Nat) (hne : kwb ≠ [])
    (hws : isWsByte kwb.headI = false) (hpar : (40 : Nat) ∉ kwb) :
    ModRevision.accept (kwb ++ 40 :: rest) =
      if trimAsciiEnd kwb == bytes "m" || kwb == trimAsciiEnd (bytes "mod") then
        match numCompareTail (40 :: rest) with
        | .ok (k, op, v) r => .ok ⟨k, v, op⟩ r
        | .err e => .err e
      else .err (kwb ++ 40 :: rest) := by
  obtain ⟨b, t, rfl⟩ := List.exists_cons_of_ne_nil hne
  have hO : optWs ((b :: t) ++ 40 :: rest) = (b :: t) ++ 40 :: rest := by
    rw [List.cons_append]
    exact optWs_cons _ hws
  have hP : peekUntil [40] ((b :: t) ++ 40 :: rest) = some (b :: t, (b :: t).length) :=
    peekUntil_single_append 40 (b :: t) rest hpar
  unfold ModRevision.accept
  rw [hO]
  split
  · rename_i hnone
    rw [hP] at hnone
    cases hnone
  · rename_i kw i hsome
    rw [hP] at hsome
    injection hsome with h1
    cases h1
    rw [List.drop_left]

theorem value_accept_kw (kwb rest : List Nat) (hne : kwb ≠ [])
    (hws : isWsByte kwb.headI = false) (hpar : (40 : Nat) ∉ kwb) :
    Value.accept (kwb ++ 40 :: rest) =
      if trimAsciiEnd kwb == bytes "val" || kwb == trimAsciiEnd (bytes "value") then
        match valueCompareTail (40 :: rest) with
        | .ok (k, op, v) r => .ok ⟨k, v, op⟩ r
        | .err e => .err e
      else .err (kwb ++ 40 :: rest) := by
  obtain ⟨b, t, rfl⟩ := List.exists_cons_of_ne_nil hne
  have hO : optWs ((b :: t) ++ 40 :: rest) = (b :: t) ++ 40 :: rest := by
    rw [List.cons_append]
    exact optWs_cons _ hws
  have hP : peekUntil [40] ((b :: t) ++ 40 :: rest) = some (b :: t, (b :: t).length) :=
    peekUntil_single_append 40 (b :: t) rest hpar
  unfold Value.accept
  rw [hO]
  split
  · rename_i hnone
    rw [hP] at hnone
    cases hnone
  · rename_i kw i hsome
    rw [hP] at hsome
    injection hsome with h1
    cases h1
    rw [List.drop_left]

theorem version_accept_kw (kwb rest : List Nat) (hne : kwb ≠ [])
    (hws : isWsByte kwb.headI = false) (hpar : (40 : Nat) ∉ kwb) :
    Version.accept (kwb ++ 40 :: rest) =
      if trimAsciiEnd kwb == bytes "ver" || kwb == trimAsciiEnd (bytes "version") then
        match numCompareTail (40 :: rest) with
        | .ok (k, op, v) r => .ok ⟨k, v, op⟩ r
        | .err e => .err e
      else .err (kwb ++ 40 :: rest) := by
  obtain ⟨b, t, rfl⟩ := List.exists_cons_of_ne_nil hne
  have hO : optWs ((b :: t) ++ 40 :: rest) = (b :: t) ++ 40 :: rest := by
    rw [List.cons_append]
    exact optWs_cons _ hws
  have hP : peekUntil [40] ((b :: t) ++ 40 :: rest) = some (b :: t, (b :: t).length) :=
    peekUntil_single_append 40 (b :: t) rest hpar
  unfold Version.accept
  rw [hO]
  split
  · rename_i hnone
    rw [hP] at hnone
    cases hnone
  · rename_i kw i hsome
    rw [hP] at hsome
    injection hsome with h1
    cases h1
    rw [List.drop_left]

theorem lease_accept_kw (kwb rest : List Nat) (hne : kwb ≠ [])
    (hws : isWsByte kwb.headI = false) (hpar : (40 : Nat) ∉ kwb) :
    Lease.accept (kwb ++ 40 :: rest) =
      if trimAsciiEnd kwb == bytes "lease" then
        match numCompareTail (40 :: rest) with
        | .ok (k, op, v) r => .ok ⟨k, v, op⟩ r
        | .err e => .err e
      else .err (kwb ++ 40 :: rest) := by
  obtain ⟨b, t, rfl⟩ := List.exists_cons_of_ne_nil hne
  have hO : optWs ((b :: t) ++ 40 :: rest) = (b :: t) ++ 40 :: rest := by
    rw [List.cons_append]
    exact optWs_cons _ hws
  have hP : peekUntil [40] ((b :: t) ++ 40 :: rest) = some (b :: t, (b :: t).length) :=
    peekUntil_single_append 40 (b :: t) rest hpar
  unfold Lease.accept
  rw [hO]
  split
  · rename_i hnone
    rw [hP] at hnone
    cases hnone
  · rename_i kw i hsome
    rw [hP] at hsome
    injection hsome with h1
    cases h1
    rw [List.drop_left]

/-- C4: for every key, operator byte and right-hand side, the short-form
keyword line parses exactly as the corresponding long-form line for each
of the four double-spelled comparison variants: the two parses are equal
outcomes (same success or failure, same key, operator and value fields,
same remaining input). -/
theorem spec_c4 : ∀ (k : List Nat) (o : Nat) (v : List Nat),
    CreateRevision.accept (cline (bytes "c") k o v) =
      CreateRevision.accept (cline (bytes "create") k o v) ∧
    ModRevision.accept (cline (bytes "m") k o v) =
      ModRevision.accept (cline (bytes "mod") k o v) ∧
    Value.accept (cline (bytes "val") k o v) =
      Value.accept (cline (bytes "value") k o v) ∧
    Version.accept (cline (bytes "ver") k o v) =
      Version.accept (cline (bytes "version") k o v) := by
  intro k o v
  refine ⟨?_, ?_, ?_, ?_⟩
  · rw [cline, cline,
      createRevision_accept_kw (bytes "c") _ (by decide) (by decide) (by decide),
      createRevision_accept_kw (bytes "create") _ (by decide) (by decide) (by decide),
      if_pos (by decide), if_pos (by decide)]
  · rw [cline, cline,
      modRevision_accept_kw (bytes "m") _ (by decide) (by decide) (by decide),
      modRevision_accept_kw (bytes "mod") _ (by decide) (by decide) (by decide),
      if_pos (by decide), if_pos (by decide)]
  · rw [cline, cline,
      value_accept_kw (bytes "val") _ (by decide) (by decide) (by decide),
      value_accept_kw (bytes "value") _ (by decide) (by decide) (by decide),
      if_pos (by decide), if_pos (by decide)]
  · rw [cline, cline,
      version_accept_kw (bytes "ver") _ (by decide) (by decide) (by decide),
      version_accept_kw (bytes "version") _ (by decide) (by decide) (by decide),
      if_pos (by decide), if_pos (by decide)]

theorem keyAccept_key_eq (post : List Nat) :
    keyAccept (40 :: ([107, 101, 121, 41] ++ post)) = .ok [107, 101, 121] post := by
  have h2 : ([107, 101, 121, 41] : List Nat) ++ post = [107, 101, 121] ++ 41 :: post := by simp
  have hd : dataAccept [107, 101, 121] = .ok [107, 101, 121] [] := by decide
  have hp : peekUntil [41] (107 :: 101 :: 121 :: 41 :: post) = some ([107, 101, 121], 3) := by
    simpa using peekUntil_single_append 41 [107, 101, 121] post (by decide)
  unfold keyAccept peekGroup
  rw [h2]
  simp [hp, hd, List.drop]

theorem pmap_isOk {α β : Type} (f : α → β) (x : ParseOut α) : (pmap f x).isOk = x.isOk := by
  cases x <;> rfl

theorem pmap_eq_ok {α β : Type} {f : α → β} {x : ParseOut α} {b : β} {r : List Nat}
    (h : pmap f x = .ok b r) : ∃ a, x = .ok a r ∧ b = f a := by
  cases x with
  | ok a r' =>
    refine ⟨a, ?_, ?_⟩
    · injection h with h1 h2
      rw [h2]
    · injection h with h1 h2
      rw [h1]
  | err e => simp [pmap] at h

theorem numCompareTail_key (v : List Nat) :
    numCompareTail (40 :: ([107, 101, 121, 41, 32, 61] ++ v)) =
      pmap (fun n => (([107, 101, 121] : List Nat), OpType.Equal, n)) (numberAccept (optWs v)) := by
  have h2 : ([107, 101, 121, 41, 32, 61] : List Nat) ++ v = [107, 101, 121, 41] ++ 32 :: 61 :: v := by
    simp
  rw [h2]
  unfold numCompareTail
  rw [keyAccept_key_eq (32 :: 61 :: v)]
  simp only []
  have hws : optWs (32 :: 61 :: v) = 61 :: v := by simp [optWs, List.dropWhile, isWsByte]
  rw [hws]
  have hop : OpType.accept (61 :: v) = .ok .Equal v := rfl
  rw [hop]
  cases hn : numberAccept (optWs v) <;> simp [hn, pmap]

theorem numberAccept_isOk (s : List Nat) :
    (numberAccept s).isOk = true ↔
      (s.takeWhile isDigitByte ≠ [] ∧ natOfDigits (s.takeWhile isDigitByte) < 2 ^ 64) := by
  unfold numberAccept
  by_cases h1 : (s.takeWhile isDigitByte).isEmpty
  · simp [h1, ParseOut.isOk, List.isEmpty_iff.mp h1]
  · have h1' : s.takeWhile isDigitByte ≠ [] := by
      intro hnil
      simp [hnil] at h1
    by_cases h2 : natOfDigits (s.takeWhile isDigitByte) < 2 ^ 64
    · rw [if_neg h1, if_pos h2]
      have h2' : natOfDigits (s.takeWhile isDigitByte) < 18446744073709551616 := by
        simpa using h2
      simp [ParseOut.isOk, h1', h2']
    · rw [if_neg h1, if_neg h2]
      have h2' : ¬natOfDigits (s.takeWhile isDigitByte) < 18446744073709551616 := by
        simpa using h2
      simp [ParseOut.isOk, h2']

theorem numberAccept_ok_val {s : List Nat} {n : Nat} {r : List Nat}
    (h : numberAccept s = .ok n r) : n = natOfDigits (s.takeWhile isDigitByte) := by
  unfold numberAccept at h
  split at h
  · simp at h
  · split at h
    · injection h with h1 h2
      rw [h1]
    · simp at h

theorem createRevision_numline (v : List Nat) :
    CreateRevision.accept (bytes "create(key) =" ++ v) =
      pmap (fun n => (⟨bytes "key", n, .Equal⟩ : CreateRevision)) (numberAccept (optWs v)) := by
  have h0 : bytes "create(key) =" ++ v =
      bytes "create" ++ 40 :: ([107, 101, 121, 41, 32, 61] ++ v) := by
    have hsplit : bytes "create(key) =" = bytes "create" ++ 40 :: [107, 101, 121, 41, 32, 61] := by
      decide
    simp [hsplit]
  rw [h0, createRevision_accept_kw (bytes "create") _ (by decide) (by decide) (by decide),
    if_pos (by decide), numCompareTail_key]
  have hb : bytes "key" = [107, 101, 121] := by decide
  rw [hb]
  cases hn : numberAccept (optWs v) <;> simp [hn, pmap]

theorem modRevision_numline (v : List Nat) :
    ModRevision.accept (bytes "mod(key) =" ++ v) =
      pmap (fun n => (⟨bytes "key", n, .Equal⟩ : ModRevision)) (numberAccept (optWs v)) := by
  have h0 : bytes "mod(key) =" ++ v =
      bytes "mod" ++ 40 :: ([107, 101, 121, 41, 32, 61] ++ v) := by
    have hsplit : bytes "mod(key) =" = bytes "mod" ++ 40 :: [107, 101, 121, 41, 32, 61] := by
      decide
    simp [hsplit]
  rw [h0, modRevision_accept_kw (bytes "mod") _ (by decide) (by decide) (by decide),
    if_pos (by decide), numCompareTail_key]
  have hb : bytes "key" = [107, 101, 121] := by decide
  rw [hb]
  cases hn : numberAccept (optWs v) <;> simp [hn, pmap]

theorem version_numline (v : List Nat) :
    Version.accept (bytes "version(key) =" ++ v) =
      pmap (fun n => (⟨bytes "key", n, .Equal⟩ : Version)) (numberAccept (optWs v)) := by
  have h0 : bytes "version(key) =" ++ v =
      bytes "version" ++ 40 :: ([107, 101, 121, 41, 32, 61] ++ v) := by
    have hsplit : bytes "version(key) =" = bytes "version" ++ 40 :: [107, 101, 121, 41, 32, 61] := by
      decide
    simp [hsplit]
  rw [h0, version_accept_kw (bytes "version") _ (by decide) (by decide) (by decide),
    if_pos (by decide), numCompareTail_key]
  have hb : bytes "key" = [107, 101, 121] := by decide
  rw [hb]
  cases hn : numberAccept (optWs v) <;> simp [hn, pmap]

theorem lease_numline (v : List Nat) :
    Lease.accept (bytes "lease(key) =" ++ v) =
      pmap (fun n => (⟨bytes "key", n, .Equal⟩ : Lease)) (numberAccept (optWs v)) := by
  have h0 : bytes "lease(key) =" ++ v =
      bytes "lease" ++ 40 :: ([107, 101, 121, 41, 32, 61] ++ v) := by
    have hsplit : bytes "lease(key) =" = bytes "lease" ++ 40 :: [107, 101, 121, 41, 32, 61] := by
      decide
    simp [hsplit]
  rw [h0, lease_accept_kw (bytes "lease") _ (by decide) (by decide) (by decide),
    if_pos (by decide), numCompareTail_key]
  have hb : bytes "key" = [107, 101, 121] := by decide
  rw [hb]
  cases hn : numberAccept (optWs v) <;> simp [hn, pmap]

/-- C7: for each numeric comparison variant, the right-hand side parses
successfully exactly when (after optional whitespace) it begins with a
non-empty run of ASCII digits whose value fits in an unsigned 64-bit
integer, and on success the value field is exactly the numeric value of
that digit run — never truncated or defaulted. -/
theorem spec_c7 : ∀ v : List Nat,
    ((CreateRevision.accept (bytes "create(key) =" ++ v)).isOk = true ↔
      ((optWs v).takeWhile isDigitByte ≠ [] ∧
        natOfDigits ((optWs v).takeWhile isDigitByte) < 2 ^ 64)) ∧
    (∀ (c : CreateRevision) (r : List Nat),
      CreateRevision.accept (bytes "create(key) =" ++ v) = .ok c r →
        c.value = natOfDigits ((optWs v).takeWhile isDigitByte)) ∧
    ((ModRevision.accept (bytes "mod(key) =" ++ v)).isOk = true ↔
      ((optWs v).takeWhile isDigitByte ≠ [] ∧
        natOfDigits ((optWs v).takeWhile isDigitByte) < 2 ^ 64)) ∧
    (∀ (c : ModRevision) (r : List Nat),
      ModRevision.accept (bytes "mod(key) =" ++ v) = .ok c r →
        c.value = natOfDigits ((optWs v).takeWhile isDigitByte)) ∧
    ((Version.accept (bytes "version(key) =" ++ v)).isOk = true ↔
      ((optWs v).takeWhile isDigitByte ≠ [] ∧
        natOfDigits ((optWs v).takeWhile isDigitByte) < 2 ^ 64)) ∧
    (∀ (c : Version) (r : List Nat),
      Version.accept (bytes "version(key) =" ++ v) = .ok c r →
        c.value = natOfDigits ((optWs v).takeWhile isDigitByte)) ∧
    ((Lease.accept (bytes "lease(key) =" ++ v)).isOk = true ↔
      ((optWs v).takeWhile isDigitByte ≠ [] ∧
        natOfDigits ((optWs v).takeWhile isDigitByte) < 2 ^ 64)) ∧
    (∀ (c : Lease) (r : List Nat),
      Lease.accept (bytes "lease(key) =" ++ v) = .ok c r →
        c.value = natOfDigits ((optWs v).takeWhile isDigitByte)) := by
  intro v
  refine ⟨?_, ?_, ?_, ?_, ?_, ?_, ?_, ?_⟩
  · rw [createRevision_numline, pmap_isOk]
    exact numberAccept_isOk _
  · intro c r h
    rw [createRevision_numline] at h
    obtain ⟨n, hX, rfl⟩ := pmap_eq_ok h
    exact numberAccept_ok_val hX
  · rw [modRevision_numline, pmap_isOk]
    exact numberAccept_isOk _
  · intro c r h
    rw [modRevision_numline] at h
    obtain ⟨n, hX, rfl⟩ := pmap_eq_ok h
    exact numberAccept_ok_val hX
  · rw [version_numline, pmap_isOk]
    exact numberAccept_isOk _
  · intro c r h
    rw [version_numline] at h
    obtain ⟨n, hX, rfl⟩ := pmap_eq_ok h
    exact numberAccept_ok_val hX
  · rw [lease_numline, pmap_isOk]
    exact numberAccept_isOk _
  · intro c r h
    rw [lease_numline] at h
    obtain ⟨n, hX, rfl⟩ := pmap_eq_ok h
    exact numberAccept_ok_val hX

/-- C7 witness: the exact-value clause applied at the concrete
right-hand side consisting of a space and the digits 123. -/
theorem spec_c7_witness :
    CreateRevision.accept (bytes "create(key) =" ++ bytes " 123") =
      .ok ⟨bytes "key", 123, .Equal⟩ ([] : List Nat) ∧
    (⟨bytes "key", 123, OpType.Equal⟩ : CreateRevision).value =
      natOfDigits ((optWs (bytes " 123")).takeWhile isDigitByte) :=
  ⟨by decide, (spec_c7 (bytes " 123")).2.1 ⟨bytes "key", 123, .Equal⟩ ([] : List Nat) (by decide)⟩

theorem peekUntil_some_spec {pat s d : List Nat} {i : Nat}
    (h : peekUntil pat s = some (d, i)) :
    i = d.length ∧ pat.isPrefixOf (s.drop i) = true := by
  induction s generalizing d i with
  | nil =>
    unfold peekUntil at h
    split at h
    · rename_i hpre
      injection h with h1
      injection h1 with h2 h3
      subst h2
      subst h3
      exact ⟨rfl, hpre⟩
    · cases h
  | cons b t ih =>
    unfold peekUntil at h
    split at h
    · rename_i hpre
      injection h with h1
      injection h1 with h2 h3
      subst h2
      subst h3
      exact ⟨rfl, by simpa using hpre⟩
    · cases hrec : peekUntil pat t with
      | none =>
        rw [hrec] at h
        cases h
      | some pr =>
        obtain ⟨d', i'⟩ := pr
        rw [hrec] at h
        injection h with h1
        injection h1 with h2 h3
        subst h2
        subst h3
        obtain ⟨hi, hp⟩ := ih hrec
        refine ⟨by simp [hi], ?_⟩
        simpa using hp

theorem lfPair_boundary {t : List Nat} (h : ([10, 10] : List Nat).isPrefixOf t = true) :
    lfPair t = .ok () (t.drop 2) := by
  cases t with
  | nil => simp [List.isPrefixOf] at h
  | cons a t' =>
    cases t' with
    | nil => simp [List.isPrefixOf] at h
    | cons b t'' =>
      simp [List.isPrefixOf] at h
      obtain ⟨h1, h2⟩ := h
      subst h1
      subst h2
      rfl

/-- C3: when the input, after optional leading whitespace, lacks a
blank-line boundary, or lacks a second boundary after the bytes consumed
through the first one, the top-level parse fails with UnexpectedToken
instead of returning a document. -/
theorem spec_c3 : ∀ s : List Nat,
    (peekUntil [10, 10] (optWs s) = none ∨
      ∃ (c : List Nat) (i : Nat), peekUntil [10, 10] (optWs s) = some (c, i) ∧
        peekUntil [10, 10] ((optWs s).drop (i + 2)) = none) →
    (TxnData.accept s).isErr = true := by
  intro s h
  unfold TxnData.accept
  rcases h with h | ⟨c, i, hsome, hnone⟩
  · unfold sectionUntilBoundary
    rw [h]
    rfl
  · obtain ⟨hi, hpre⟩ := peekUntil_some_spec hsome
    unfold sectionUntilBoundary
    rw [hsome]
    by_cases hc : c.isEmpty
    · have hc' : c = [] := List.isEmpty_iff.mp hc
      subst hc'
      simp only [List.length_nil] at hi
      subst hi
      rw [List.drop_zero] at hpre
      simp only [List.length_nil, Nat.zero_add] at hnone
      simp only [List.isEmpty_nil, if_true, lfPair_boundary hpre]
      unfold successFailure sectionUntilBoundary
      simp only [hnone, ParseOut.isErr]
    · have hc2 : c.isEmpty = false := by simpa using hc
      simp only [hc2, Bool.false_eq_true, if_false]
      cases hsl : sepList Compare.accept c with
      | err e => simp [hsl, ParseOut.isErr]
      | ok xs r =>
        simp only [hsl, lfPair_boundary hpre]
        unfold successFailure sectionUntilBoundary
        have hdd : List.drop 2 (List.drop i (optWs s)) = List.drop (i + 2) (optWs s) := by
          rw [List.drop_drop, Nat.add_comm]
        simp only [hdd, hnone, ParseOut.isErr]

/-- C3 witness: a buffer with no blank-line boundary at all fails. -/
theorem spec_c3_witness : (TxnData.accept (bytes "get key")).isErr = true :=
  spec_c3 (bytes "get key") (Or.inl (by decide))

theorem tryAlts_cons_err {α : Type} {p : List Nat → ParseOut α}
    {ps : List (List Nat → ParseOut α)} {s e : List Nat} (h : p s = .err e) :
    tryAlts (p :: ps) s = tryAlts ps s := by
  show (match p s with | ParseOut.ok a r => ParseOut.ok a r | ParseOut.err _ => tryAlts ps s) = tryAlts ps s
  rw [h]

theorem tryAlts_head_ok {α : Type} {p : List Nat → ParseOut α}
    {ps : List (List Nat → ParseOut α)} {s : List Nat} {a : α} {r : List Nat}
    (h : p s = .ok a r) : tryAlts (p :: ps) s = .ok a r := by
  show (match p s with | ParseOut.ok a r => ParseOut.ok a r | ParseOut.err _ => tryAlts ps s) = ParseOut.ok a r
  rw [h]

theorem tryAlts_skip {α : Type} (ps : List (List Nat → ParseOut α)) (n : Nat) (s : List Nat)
    (h : ∀ p ∈ ps.take n, (p s).isErr = true) :
    tryAlts ps s = tryAlts (ps.drop n) s := by
  induction n generalizing ps with
  | zero => simp
  | succ m ih =>
    cases ps with
    | nil => simp
    | cons p ps' =>
      have hp : (p s).isErr = true := h p (by simp)
      obtain ⟨e, he⟩ : ∃ e, p s = .err e := by
        cases hps : p s with
        | ok a r =>
          rw [hps] at hp
          simp [ParseOut.isErr] at hp
        | err e => exact ⟨e, rfl⟩
      rw [tryAlts_cons_err he]
      simp only [List.drop_succ_cons]
      exact ih ps' fun q hq => h q (by simp [List.take_succ_cons, hq])

theorem tryAlts_nil_err {α : Type} (s : List Nat) :
    tryAlts ([] : List (List Nat → ParseOut α)) s = .err s := rfl

/-- C9: the ordered-alternative dispatcher restarts every alternative
from the position saved before the attempts: a failed rule, whatever
bytes it consumed before failing, leaves the position seen by the
remaining alternatives unchanged, both in general and as instantiated
by Compare::accept and Operation::accept. -/
theorem spec_c9 :
    (∀ (α : Type) (p : List Nat → ParseOut α) (ps : List (List Nat → ParseOut α))
       (s e : List Nat), p s = .err e → tryAlts (p :: ps) s = tryAlts ps s) ∧
    (∀ (n : Nat) (s : List Nat), (∀ p ∈ compareAlts.take n, (p s).isErr = true) →
       Compare.accept s = tryAlts (compareAlts.drop n) s) ∧
    (∀ (n : Nat) (s : List Nat), (∀ p ∈ operationAlts.take n, (p s).isErr = true) →
       Operation.accept s = tryAlts (operationAlts.drop n) s) := by
  refine ⟨fun α p ps s e h => tryAlts_cons_err h, ?_, ?_⟩
  · intro n s h
    unfold Compare.accept
    exact tryAlts_skip compareAlts n s h
  · intro n s h
    unfold Operation.accept
    exact tryAlts_skip operationAlts n s h

/-- C9 witness: the dispatcher clauses applied at concrete inputs: a
ModRevision attempt failing on a create line does not affect where the
remaining alternatives start. -/
theorem spec_c9_witness :
    tryAlts [fun s => pmap Compare.ModRevision (ModRevision.accept s)] (bytes "create(k) = 1") =
      tryAlts ([] : List (List Nat → ParseOut Compare)) (bytes "create(k) = 1") ∧
    Compare.accept (bytes "create(k) = 1") =
      tryAlts (compareAlts.drop 1) (bytes "create(k) = 1") :=
  ⟨spec_c9.1 Compare (fun s => pmap Compare.ModRevision (ModRevision.accept s)) []
      (bytes "create(k) = 1") (bytes "create(k) = 1") (by decide),
   spec_c9.2.1 1 (bytes "create(k) = 1") (by decide)⟩

/-- C8: when every ordered alternative fails, Compare::accept and
Operation::accept fail with UnexpectedToken, and when an alternative
succeeds after all earlier ones failed, the dispatcher commits to that
first succeeding rule; in particular `creat(key) = 1` matches no
comparison variant and fails. -/
theorem spec_c8 :
    (∀ s : List Nat, (∀ p ∈ compareAlts, (p s).isErr = true) →
       Compare.accept s = .err s) ∧
    (∀ s : List Nat, (∀ p ∈ operationAlts, (p s).isErr = true) →
       Operation.accept s = .err s) ∧
    (∀ (s : List Nat) (n : Nat) (p : List Nat → ParseOut Compare)
       (l : List (List Nat → ParseOut Compare)) (a : Compare) (r : List Nat),
       compareAlts.drop n = p :: l → (∀ q ∈ compareAlts.take n, (q s).isErr = true) →
       p s = .ok a r → Compare.accept s = .ok a r) ∧
    (∀ (s : List Nat) (n : Nat) (p : List Nat → ParseOut Operation)
       (l : List (List Nat → ParseOut Operation)) (a : Operation) (r : List Nat),
       operationAlts.drop n = p :: l → (∀ q ∈ operationAlts.take n, (q s).isErr = true) →
       p s = .ok a r → Operation.accept s = .ok a r) ∧
    (Compare.accept (bytes "creat(key) = 1")).isErr = true := by
  refine ⟨?_, ?_, ?_, ?_, by decide⟩
  · intro s h
    unfold Compare.accept
    rw [tryAlts_skip compareAlts 5 s fun p hp => h p (by simpa using hp)]
    rfl
  · intro s h
    unfold Operation.accept
    rw [tryAlts_skip operationAlts 3 s fun p hp => h p (by simpa using hp)]
    rfl
  · intro s n p l a r hd hq hok
    unfold Compare.accept
    rw [tryAlts_skip compareAlts n s hq, hd]
    exact tryAlts_head_ok hok
  · intro s n p l a r hd hq hok
    unfold Operation.accept
    rw [tryAlts_skip operationAlts n s hq, hd]
    exact tryAlts_head_ok hok

/-- C8 witness: the all-fail clause applied at `creat(key) = 1` and the
first-success clause applied at a mod line. -/
theorem spec_c8_witness :
    Compare.accept (bytes "creat(key) = 1") = .err (bytes "creat(key) = 1") ∧
    Compare.accept (bytes "mod(k) > 5") =
      .ok (.ModRevision ⟨bytes "k", 5, .GreaterThan⟩) ([] : List Nat) :=
  ⟨spec_c8.1 (bytes "creat(key) = 1") (by decide),
   spec_c8.2.2.1 (bytes "mod(k) > 5") 0
     (fun s => pmap Compare.ModRevision (ModRevision.accept s)) _
     (.ModRevision ⟨bytes "k", 5, .GreaterThan⟩) ([] : List Nat)
     rfl (by simp) (by decide)⟩

theorem optWs_append {l : List Nat} (X : List Nat) (hne : l ≠ [])
    (hws : isWsByte l.headI = false) : optWs (l ++ X) = l ++ X := by
  obtain ⟨b, t, rfl⟩ := List.exists_cons_of_ne_nil hne
  rw [List.cons_append]
  exact optWs_cons _ hws

theorem sectionUntilBoundary_cons_boundary {α : Type} (item : List Nat → ParseOut α)
    (rest : List Nat) :
    sectionUntilBoundary item (10 :: 10 :: rest) = .ok ([] : List α) (10 :: 10 :: rest) := by
  unfold sectionUntilBoundary
  rw [peekUntil_of_isPrefixOf (by simp [List.isPrefixOf])]
  simp

theorem sectionUntilBoundary_pos {α : Type} {item : List Nat → ParseOut α}
    {d R : List Nat} {xs : List α} {r : List Nat}
    (hpk : peekUntil [10, 10] d = some (R, R.length)) (hR : R ≠ [])
    (hsl : sepList item R = .ok xs r) :
    sectionUntilBoundary item d = .ok xs (d.drop R.length) := by
  unfold sectionUntilBoundary
  rw [hpk]
  have hRe : R.isEmpty = false := by
    cases R with
    | nil => exact absurd rfl hR
    | cons a t => rfl
  simp only [hRe, Bool.false_eq_true, if_false, hsl]

theorem failureSection_pos {F : List Nat} {xs : List Operation} {r : List Nat}
    (hF : F ≠ []) (h : sepList Operation.accept F = .ok xs r) :
    failureSection F = .ok xs F := by
  unfold failureSection
  have hFe : F.isEmpty = false := by
    cases F with
    | nil => exact absurd rfl hF
    | cons a t => rfl
  simp only [hFe, Bool.false_eq_true, if_false, h]

/-- C6: each of the three sections may independently be empty without
causing overall failure: for any section contents that parse on their
own and sit between well-located blank-line boundaries, a document with
an empty compare region yields compares = [] and the other two sections
parsed normally; likewise for an empty success region and an empty
failure region. -/
theorem spec_c6 :
    ∀ (C S F rC sS rF : List Nat) (cs : List Compare) (ss fs : List Operation),
    C ≠ [] → S ≠ [] → F ≠ [] →
    isWsByte C.headI = false →
    sepList Compare.accept C = .ok cs rC →
    sepList Operation.accept S = .ok ss sS →
    sepList Operation.accept F = .ok fs rF →
    peekUntil [10, 10] (S ++ 10 :: 10 :: F) = some (S, S.length) →
    peekUntil [10, 10] (C ++ 10 :: 10 :: 10 :: 10 :: F) = some (C, C.length) →
    peekUntil [10, 10] (C ++ 10 :: 10 :: (S ++ [10, 10])) = some (C, C.length) →
    peekUntil [10, 10] (S ++ [10, 10]) = some (S, S.length) →
    TxnData.accept (10 :: 10 :: (S ++ 10 :: 10 :: F)) = .ok ⟨[], ss, fs⟩ F ∧
    TxnData.accept (C ++ 10 :: 10 :: 10 :: 10 :: F) = .ok ⟨cs, [], fs⟩ F ∧
    TxnData.accept (C ++ 10 :: 10 :: (S ++ [10, 10])) = .ok ⟨cs, ss, []⟩ [] := by
  intro C S F rC sS rF cs ss fs hCne hSne hFne hCh hC hS hF hb1 hb2 hb3 hb3'
  refine ⟨?_, ?_, ?_⟩
  · have hws : optWs (10 :: 10 :: (S ++ 10 :: 10 :: F)) = 10 :: 10 :: (S ++ 10 :: 10 :: F) :=
      optWs_cons _ (by decide)
    unfold TxnData.accept
    rw [hws]
    simp only [sectionUntilBoundary_cons_boundary, lfPair_cons, successFailure,
      sectionUntilBoundary_pos hb1 hSne hS, List.drop_left,
      failureSection_pos hFne hF]
  · have hws : optWs (C ++ 10 :: 10 :: 10 :: 10 :: F) = C ++ 10 :: 10 :: 10 :: 10 :: F :=
      optWs_append _ hCne hCh
    unfold TxnData.accept
    rw [hws]
    simp only [sectionUntilBoundary_pos hb2 hCne hC, List.drop_left, lfPair_cons,
      successFailure, sectionUntilBoundary_cons_boundary,
      failureSection_pos hFne hF]
  · have hws : optWs (C ++ 10 :: 10 :: (S ++ [10, 10])) = C ++ 10 :: 10 :: (S ++ [10, 10]) :=
      optWs_append _ hCne hCh
    unfold TxnData.accept
    rw [hws]
    simp only [sectionUntilBoundary_pos hb3 hCne hC, List.drop_left, lfPair_cons,
      successFailure, sectionUntilBoundary_pos hb3' hSne hS,
      failureSection]
    rfl

/-- C6 witness: the three empty-section documents built from the
concrete sections `mod(key) > 0`, `get key1`, `del key2`. -/
theorem spec_c6_witness :
    TxnData.accept (10 :: 10 :: (bytes "get key1" ++ 10 :: 10 :: bytes "del key2")) =
      .ok ⟨[], [.Get ⟨bytes "key1"⟩], [.Delete ⟨bytes "key2"⟩]⟩ (bytes "del key2") :=
  (spec_c6 (bytes "mod(key) > 0") (bytes "get key1") (bytes "del key2")
    ([] : List Nat) ([] : List Nat) ([] : List Nat)
    [.ModRevision ⟨bytes "key", 0, .GreaterThan⟩]
    [.Get ⟨bytes "key1"⟩] [.Delete ⟨bytes "key2"⟩]
    (by decide) (by decide) (by decide) (by decide) (by decide) (by decide)
    (by decide) (by decide) (by decide) (by decide) (by decide)).1

end EtcdTxn
